import Mathlib

/-!
Verification of the single-socket UDP echo server (`server.c`).

The development shallowly embeds the event loop of `main` as a step
function on an explicit server state.  The environment (the OS) supplies,
for each loop iteration, the outcome of `epoll_wait`, of the `recvfrom`
or `sendto` call made in the taken branch, and of the re-arming
`epoll_ctl` call.  Machine-level details that the loop logic depends on
are kept: the epoll event masks are modelled as the actual Linux bit
masks and the branch dispatch tests the same bits the C code tests.
-/

namespace UdpEcho

/-- Buffer size used by the server, `MAX_BUFSIZE` in `server.c`. -/
def MAX_BUFSIZE : Nat := 1472

/-- Linux `EPOLLIN` bit. -/
def EPOLLIN : Nat := 1

/-- Linux `EPOLLOUT` bit. -/
def EPOLLOUT : Nat := 4

/-- Linux `EPOLLONESHOT` bit (bit 30). -/
def EPOLLONESHOT : Nat := 1073741824

/-- C `EXIT_SUCCESS`. -/
def EXIT_SUCCESS : Nat := 0

/-- C `EXIT_FAILURE`. -/
def EXIT_FAILURE : Nat := 1

/-- The readable one-shot interest mask `EPOLLIN | EPOLLONESHOT` armed by the loop. -/
def rdInterest : Nat := EPOLLIN ||| EPOLLONESHOT

/-- The writable one-shot interest mask `EPOLLOUT | EPOLLONESHOT` armed by the loop. -/
def wrInterest : Nat := EPOLLOUT ||| EPOLLONESHOT

/--
State of the event loop between iterations: the locals of `main` that
survive an iteration.  `buf` is the contents of the `MAX_BUFSIZE` byte
buffer, `bufptr` the offset of the send cursor into it (the C `bufptr`
pointer minus `buf`), `datasize` the count of unsent bytes, `insaddr`
the saved peer address (abstracted to a number), and `interest` the
event mask last registered with epoll (the C variable `ev.events`).
-/
structure ServerState where
  buf : List Nat
  bufptr : Nat
  datasize : Nat
  insaddr : Nat
  interest : Nat
deriving DecidableEq, Repr

/--
State right after setup: the buffer holds the `malloc`ed garbage `g`,
`bufptr`, `datasize` and `insaddr` are uninitialised C locals (arbitrary
values `gp`, `gs`, `ga`), and the socket was added to epoll with
`EPOLLIN | EPOLLONESHOT` interest.
-/
def initState (g : List Nat) (gp gs ga : Nat) : ServerState :=
  { buf := g, bufptr := gp, datasize := gs, insaddr := ga,
    interest := rdInterest }

/-- Outcome of the I/O call made inside the branch taken this iteration:
`recvfrom` returning `n ≥ 0` bytes and a sender address, `recvfrom`
failing transiently (`EINTR`/`EAGAIN`) or fatally, `sendto` accepting
`m` bytes, `sendto` failing transiently or fatally, or no I/O call
because neither `EPOLLIN` nor `EPOLLOUT` was reported. -/
inductive IOResult where
  | recvOk (d : List Nat) (addr : Nat)
  | recvErr (transient : Bool)
  | sendOk (m : Nat)
  | sendErr (transient : Bool)
  | noEvent
deriving DecidableEq, Repr

/-- Environment input for one iteration of the `while (1)` loop:
either `epoll_wait` failed (with or without `errno == EINTR`), or it
reported the event mask `evs`, the subsequent I/O call had outcome
`io`, and the re-arming `epoll_ctl` call succeeded iff `ctlOk`. -/
inductive IterInput where
  | waitErr (eintr : Bool)
  | ready (evs : Nat) (io : IOResult) (ctlOk : Bool)
deriving DecidableEq, Repr

/-- Result of one iteration: either the loop continues with a new state,
having possibly performed a successful send (`sent`, payload and
destination address) and re-registered the interest mask `rearm`
(`none` on the `EINTR` retry path, which skips the `epoll_ctl` call),
or a fatal error took the `goto out` path. -/
inductive StepResult where
  | next (s : ServerState) (sent : Option (List Nat × Nat)) (rearm : Option Nat)
  | fatal
deriving DecidableEq, Repr

/-- The `epoll_ctl(epfd, EPOLL_CTL_MOD, sockfd, &ev)` call at the bottom
of the loop: on success the loop continues with `ev.events = ev`
registered; on failure the `ON_ERROR_PERROR_GOTO` macro aborts. -/
def rearm (s : ServerState) (sent : Option (List Nat × Nat)) (ev : Nat)
    (ctlOk : Bool) : StepResult :=
  if ctlOk then .next { s with interest := ev } sent (some ev) else .fatal

/--
One iteration of the event loop of `main` (`server.c` lines 159-233).

* `epoll_wait` failure: retry on `EINTR` (no I/O, no state change, no
  re-arm), otherwise fatal.
* `events.events & EPOLLIN`: `recvfrom`.  A transient failure re-arms
  `EPOLLIN | EPOLLONESHOT`; success stores the datagram at the start of
  the buffer, sets `datasize = nread`, `bufptr = buf`, saves the sender
  address and arms `EPOLLOUT | EPOLLONESHOT`; any other failure is fatal.
* otherwise, `events.events & EPOLLOUT`: `sendto(bufptr, datasize)`.
  On success `nwritten = m` bytes starting at the cursor are delivered,
  `datasize -= m`, `bufptr += m`; a transient failure changes nothing;
  any other failure is fatal.  Then `ev.events` is `EPOLLIN` if
  `datasize` is zero, else `EPOLLOUT` (both with `EPOLLONESHOT`).
* neither bit: no I/O; `ev` is unchanged, so the old interest is re-armed.

The kernel guarantees `nread ≤ MAX_BUFSIZE` and `nwritten ≤ datasize`;
these facts are part of `validInput` below, so the truncated `Nat`
subtraction below agrees with the C `size_t` arithmetic.
-/
def step (s : ServerState) : IterInput → StepResult
  | .waitErr eintr => if eintr then .next s none none else .fatal
  | .ready evs io ctlOk =>
    if evs &&& EPOLLIN ≠ 0 then
      match io with
      | .recvOk d addr =>
          rearm { s with buf := d ++ s.buf.drop d.length,
                         datasize := d.length, bufptr := 0,
                         insaddr := addr }
            none wrInterest ctlOk
      | .recvErr transient =>
          if transient then rearm s none rdInterest ctlOk else .fatal
      | _ => .fatal
    else if evs &&& EPOLLOUT ≠ 0 then
      match io with
      | .sendOk m =>
          rearm { s with datasize := s.datasize - m, bufptr := s.bufptr + m }
            (some ((s.buf.drop s.bufptr).take m, s.insaddr))
            (if s.datasize - m = 0 then rdInterest else wrInterest) ctlOk
      | .sendErr transient =>
          if transient then
            rearm s none
              (if s.datasize = 0 then rdInterest else wrInterest) ctlOk
          else .fatal
      | _ => .fatal
    else
      rearm s none s.interest ctlOk

/-- Environment guarantees for the I/O outcome of an iteration, given
which branch the reported mask selects: the `EPOLLIN` branch runs
`recvfrom` (which returns at most `MAX_BUFSIZE` bytes), the `EPOLLOUT`
branch runs `sendto` (which accepts at most the `datasize` bytes it was
given), and with neither bit reported no I/O call is made. -/
def ioKindOk (s : ServerState) (evs : Nat) (io : IOResult) : Bool :=
  if evs &&& EPOLLIN ≠ 0 then
    match io with
    | .recvOk d _ => decide (d.length ≤ MAX_BUFSIZE)
    | .recvErr _ => true
    | _ => false
  else if evs &&& EPOLLOUT ≠ 0 then
    match io with
    | .sendOk m => decide (m ≤ s.datasize)
    | .sendErr _ => true
    | _ => false
  else
    match io with
    | .noEvent => true
    | _ => false

/-- Environment guarantees for one iteration input.  Epoll with
`EPOLLONESHOT` reports a readiness bit only if it is part of the
currently registered interest, and the I/O outcome matches the branch
the reported mask selects. -/
def validInput (s : ServerState) : IterInput → Bool
  | .waitErr _ => true
  | .ready evs io _ =>
      (evs &&& EPOLLIN == 0 || s.interest &&& EPOLLIN != 0) &&
      ((evs &&& EPOLLOUT == 0 || s.interest &&& EPOLLOUT != 0) &&
       ioKindOk s evs io)

/-- Validity of a whole input sequence: each input is valid in the state
it is consumed in, and no input follows a fatal iteration. -/
def validInputs : ServerState → List IterInput → Bool
  | _, [] => true
  | s, i :: rest =>
      validInput s i &&
      (match step s i with
       | .next s' _ _ => validInputs s' rest
       | .fatal => rest.isEmpty)

/-- Ghost bookkeeping for reachability: the payload and sender address
of the most recent successful `recvfrom`, if any. -/
def ghostNext (gh : Option (List Nat × Nat)) : IterInput → Option (List Nat × Nat)
  | .ready _ (.recvOk d a) _ => some (d, a)
  | _ => gh

/-- States reachable by the event loop, together with the ghost record
of the last received datagram.  The initial buffer has the `malloc`ed
size `MAX_BUFSIZE`; all inputs satisfy the environment guarantees. -/
inductive ReachG : ServerState → Option (List Nat × Nat) → Prop where
  | init (g : List Nat) (gp gs ga : Nat) (hg : g.length = MAX_BUFSIZE) :
      ReachG (initState g gp gs ga) none
  | step (s : ServerState) (gh : Option (List Nat × Nat)) (i : IterInput)
      (s' : ServerState) (sent : Option (List Nat × Nat)) (ra : Option Nat)
      (hr : ReachG s gh) (hv : validInput s i = true)
      (hs : step s i = .next s' sent ra) :
      ReachG s' (ghostNext gh i)

/-- The spec state `AWAIT_READ`: readable one-shot interest registered. -/
def AwaitRead (s : ServerState) : Prop := s.interest = rdInterest

/-- The spec state `AWAIT_WRITE`: writable one-shot interest registered. -/
def AwaitWrite (s : ServerState) : Prop := s.interest = wrInterest

/-- Whether an iteration input makes the loop call `recvfrom`: exactly
when the reported mask contains `EPOLLIN` (the first branch). -/
def attemptsRecv : IterInput → Bool
  | .ready evs _ _ => evs &&& EPOLLIN != 0
  | _ => false

/-- Whether an iteration input makes the loop call `sendto`: the
`EPOLLIN` bit is clear and the `EPOLLOUT` bit is set. -/
def attemptsSend : IterInput → Bool
  | .ready evs _ _ => evs &&& EPOLLIN == 0 && evs &&& EPOLLOUT != 0
  | _ => false

/-- The echo-in-progress invariant for a datagram `B` received from
address `a`: the peer address is saved, cursor and remaining count
partition `B`, and the unsent region of the buffer holds exactly the
unsent suffix of `B`. -/
def EchoInv (B : List Nat) (a : Nat) (s : ServerState) : Prop :=
  s.insaddr = a ∧ s.bufptr + s.datasize = B.length ∧
  (s.buf.drop s.bufptr).take s.datasize = B.drop s.bufptr

/-- Global invariant of the loop: the registered interest is exactly one
of the two one-shot masks; in `AWAIT_WRITE` the buffer holds the unsent
suffix of the last received datagram, destined to its sender; in
`AWAIT_READ` either nothing was ever received or the last received
datagram has been fully sent (`datasize = 0`). -/
def GInv (s : ServerState) (gh : Option (List Nat × Nat)) : Prop :=
  (s.interest = rdInterest ∨ s.interest = wrInterest) ∧
  (s.interest = wrInterest → ∃ B a, gh = some (B, a) ∧ EchoInv B a s) ∧
  (s.interest = rdInterest → gh = none ∨ s.datasize = 0)

/-- Result of running the loop from a state until it next arms readable
interest: `reached` with the successful sends performed on the way,
`pending` if the inputs ran out first, `fatalStop` on a fatal error. -/
inductive URResult where
  | reached (s : ServerState) (sent : List (List Nat × Nat))
  | pending (s : ServerState)
  | fatalStop
deriving DecidableEq, Repr

/-- Prepend an optional performed send to the send log of a run result. -/
def addSent (o : Option (List Nat × Nat)) : URResult → URResult
  | .reached s l => .reached s (o.toList ++ l)
  | r => r

/-- Run the loop on the given inputs, stopping as soon as the state has
readable interest registered, and log the successful sends. -/
def runUntilRead : ServerState → List IterInput → URResult
  | s, ins =>
    if s.interest = rdInterest then .reached s []
    else
      match ins with
      | [] => .pending s
      | i :: rest =>
        match step s i with
        | .fatal => .fatalStop
        | .next s' sent _ => addSent sent (runUntilRead s' rest)

/-! ### Socket configuration (`set_nonblock`, `set_reuseport`, setup) -/

/-- Linux `SOL_SOCKET`. -/
def SOL_SOCKET : Nat := 1

/-- Linux `SO_REUSEPORT`. -/
def SO_REUSEPORT : Nat := 15

/-- Linux `O_NONBLOCK` file-status flag (octal 04000). -/
def O_NONBLOCK : Nat := 2048

/-- Configuration state of the server socket visible to the two setup
helpers: the socket options set via `setsockopt` (level, option name,
value) and the `fcntl` file-status flag word. -/
structure SockState where
  options : List (Nat × Nat × Nat)
  statusFlags : Nat
deriving DecidableEq, Repr

/-- Effect of a successful `setsockopt(fd, level, optname, &optval, ...)`. -/
def setsockopt (sk : SockState) (level optname optval : Nat) : SockState :=
  { sk with options := (level, optname, optval) :: sk.options }

/-- Effect of `fcntl(fd, F_GETFL, 0)`: read the file-status flags. -/
def fcntl_getfl (sk : SockState) : Nat := sk.statusFlags

/-- Effect of a successful `fcntl(fd, F_SETFL, flags)`. -/
def fcntl_setfl (sk : SockState) (flags : Nat) : SockState :=
  { sk with statusFlags := flags }

/-- `set_nonblock` from `server.c` (lines 65-71): despite its name it
calls `setsockopt(fd, SOL_SOCKET, SO_REUSEPORT, &optval, ...)` with
`optval = 1`. -/
def set_nonblock (sk : SockState) : SockState :=
  setsockopt sk SOL_SOCKET SO_REUSEPORT 1

/-- `set_reuseport` from `server.c` (lines 76-87): despite its name it
reads the file-status flags with `F_GETFL` and writes them back with
`O_NONBLOCK` added. -/
def set_reuseport (sk : SockState) : SockState :=
  fcntl_setfl sk (fcntl_getfl sk ||| O_NONBLOCK)

/-- The socket configuration performed by `main` during setup: first
`set_reuseport(sockfd)` (line 122), then, after `bind`,
`set_nonblock(sockfd)` (line 136). -/
def setupSocket (sk : SockState) : SockState :=
  set_nonblock (set_reuseport sk)

/-- Whether the `SO_REUSEPORT` option has been set to a nonzero value. -/
def hasReuseport (sk : SockState) : Bool :=
  sk.options.any fun o =>
    o.1 == SOL_SOCKET && o.2.1 == SO_REUSEPORT && o.2.2 != 0

/-- Whether the `O_NONBLOCK` file-status flag is set. -/
def isNonblock (sk : SockState) : Bool :=
  sk.statusFlags &&& O_NONBLOCK != 0

/-! ### Fatal-error diagnostics and exit codes -/

/-- A diagnostic written to `stderr` on a fatal error: either the pair
of lines produced by the `ON_ERROR_PERROR_GOTO` macro (lines 52-60),
which prints `Error happens in <function>:<line>` followed by
`perror(<label>)`, or the plain `fprintf` emitted when `malloc` fails
(lines 107-111), which reports only the requested size. -/
inductive Diag where
  | perrorDiag (funcName : String) (line : Nat) (label : String)
  | mallocDiag (size : Nat)
deriving DecidableEq, Repr

/-- Whether a diagnostic names the enclosing function and the source
line (as the macro does via `__func__` and `__LINE__`). -/
def identifiesFuncAndLine : Diag → Bool
  | .perrorDiag _ _ _ => true
  | .mallocDiag _ => false

/-- The fatal-error exits of `main`: each constructor is one failing
call that takes an exit path. -/
inductive FailPoint where
  | mallocFail
  | socketFail
  | reuseportFail
  | bindFail
  | nonblockFail
  | epollCreateFail
  | epollCtlAddFail
  | epollWaitFail
  | recvfromFail
  | sendtoFail
  | epollCtlModFail
deriving DecidableEq, Repr

/-- What each fatal exit path writes to `stderr` and returns from
`main`.  The labels and line numbers are those of the macro invocation
in `server.c`; note the call sites at lines 117 and 123 pass `sockfd`
as the macro's function argument and the one at line 137 passes `bind`,
so those `perror` labels do not name the call that failed. -/
def fatalReport : FailPoint → List Diag × Nat
  | .mallocFail => ([.mallocDiag MAX_BUFSIZE], EXIT_FAILURE)
  | .socketFail => ([.perrorDiag "main" 117 "sockfd"], EXIT_FAILURE)
  | .reuseportFail => ([.perrorDiag "main" 123 "sockfd"], EXIT_FAILURE)
  | .bindFail => ([.perrorDiag "main" 134 "bind"], EXIT_FAILURE)
  | .nonblockFail => ([.perrorDiag "main" 137 "bind"], EXIT_FAILURE)
  | .epollCreateFail => ([.perrorDiag "main" 143 "epoll_create1"], EXIT_FAILURE)
  | .epollCtlAddFail => ([.perrorDiag "main" 154 "epoll_ctl"], EXIT_FAILURE)
  | .epollWaitFail => ([.perrorDiag "main" 163 "epoll_wait"], EXIT_FAILURE)
  | .recvfromFail => ([.perrorDiag "main" 183 "recvfrom"], EXIT_FAILURE)
  | .sendtoFail => ([.perrorDiag "main" 214 "sendto"], EXIT_FAILURE)
  | .epollCtlModFail => ([.perrorDiag "main" 232 "epoll_ctl"], EXIT_FAILURE)

/-- The call that actually fails at each fatal exit point of `main`. -/
def failingCall : FailPoint → String
  | .mallocFail => "malloc"
  | .socketFail => "socket"
  | .reuseportFail => "set_reuseport"
  | .bindFail => "bind"
  | .nonblockFail => "set_nonblock"
  | .epollCreateFail => "epoll_create1"
  | .epollCtlAddFail => "epoll_ctl"
  | .epollWaitFail => "epoll_wait"
  | .recvfromFail => "recvfrom"
  | .sendtoFail => "sendto"
  | .epollCtlModFail => "epoll_ctl"

/-- The operation label a diagnostic prints via `perror`, if any. -/
def diagLabel : Diag → Option String
  | .perrorDiag _ _ label => some label
  | .mallocDiag _ => none

/-! ### Teardown and resource release -/

/-- The descriptor-holding locals of `main` at an exit point, using the
same `-1` sentinel convention as the C code (`epfd = -1` until
`epoll_create1` succeeds; a failed `socket` call leaves `sockfd = -1`),
plus whether the `malloc`ed buffer is live. -/
structure Resources where
  epfd : Int
  sockfd : Int
  bufValid : Bool
deriving DecidableEq, Repr

/-- The values of `epfd`, `sockfd` and the buffer at the moment each
fatal path jumps to `out` (for `mallocFail`, at the direct `return`).
`sfd` and `efd` are the nonnegative descriptors granted by successful
`socket` and `epoll_create1` calls. -/
def resourcesAt (fp : FailPoint) (sfd efd : Nat) : Resources :=
  match fp with
  | .mallocFail => { epfd := -1, sockfd := -1, bufValid := false }
  | .socketFail => { epfd := -1, sockfd := -1, bufValid := true }
  | .reuseportFail => { epfd := -1, sockfd := (sfd : Int), bufValid := true }
  | .bindFail => { epfd := -1, sockfd := (sfd : Int), bufValid := true }
  | .nonblockFail => { epfd := -1, sockfd := (sfd : Int), bufValid := true }
  | .epollCreateFail => { epfd := -1, sockfd := (sfd : Int), bufValid := true }
  | _ => { epfd := (efd : Int), sockfd := (sfd : Int), bufValid := true }

/-- The `close` calls issued by the `out:` epilogue (lines 234-239):
`close(epfd)` only if `epfd >= 0`, then `close(sockfd)` only if
`sockfd >= 0`. -/
def closeCalls (r : Resources) : List Int :=
  (if 0 ≤ r.epfd then [r.epfd] else []) ++
  (if 0 ≤ r.sockfd then [r.sockfd] else [])

/-- The resources still held after the `out:` epilogue ran: closed
descriptors are replaced by the `-1` sentinel and `free(buf)` releases
the buffer. -/
def teardown (r : Resources) : Resources :=
  { epfd := if 0 ≤ r.epfd then -1 else r.epfd,
    sockfd := if 0 ≤ r.sockfd then -1 else r.sockfd,
    bufValid := false }

/-- The resources still held when the process exits through `fp`.  The
`mallocFail` path returns directly without running the epilogue; every
other path runs `out:`. -/
def exitResources (fp : FailPoint) (sfd efd : Nat) : Resources :=
  match fp with
  | .mallocFail => resourcesAt .mallocFail sfd efd
  | _ => teardown (resourcesAt fp sfd efd)

/-- The `close` calls made on the exit path through `fp`. -/
def exitCloseCalls (fp : FailPoint) (sfd efd : Nat) : List Int :=
  match fp with
  | .mallocFail => []
  | _ => closeCalls (resourcesAt fp sfd efd)

/-- Whether a resource record still holds anything. -/
def leaksB (r : Resources) : Bool :=
  decide (0 ≤ r.epfd) || decide (0 ≤ r.sockfd) || r.bufValid

/-! ### Basic facts about the interest masks -/

theorem rd_ne_wr : rdInterest ≠ wrInterest := by decide

theorem wr_and_in : wrInterest &&& EPOLLIN = 0 := by decide

theorem rd_and_in : rdInterest &&& EPOLLIN ≠ 0 := by decide

theorem rd_and_out : rdInterest &&& EPOLLOUT = 0 := by decide

theorem wr_and_out : wrInterest &&& EPOLLOUT ≠ 0 := by decide

/-! ### Preservation of the echo invariant -/

/-- A fresh receive of `B` from `a` establishes the echo invariant. -/
theorem echoInv_recv (B : List Nat) (a : Nat) (s : ServerState) :
    EchoInv B a { s with buf := B ++ s.buf.drop B.length,
                         datasize := B.length, bufptr := 0,
                         insaddr := a, interest := wrInterest } := by
  refine ⟨rfl, by simp, ?_⟩
  simp [List.take_left]

/-- A send of `m ≤ datasize` bytes preserves the echo invariant,
whatever interest is re-registered afterwards. -/
theorem echoInv_send {B : List Nat} {a : Nat} {s : ServerState} {m : Nat}
    (intr : Nat) (hE : EchoInv B a s) (hm : m ≤ s.datasize) :
    EchoInv B a { s with datasize := s.datasize - m,
                         bufptr := s.bufptr + m, interest := intr } := by
  obtain ⟨ha, hlen, hreg⟩ := hE
  refine ⟨ha, ?_, ?_⟩
  · show s.bufptr + m + (s.datasize - m) = B.length
    omega
  show (s.buf.drop (s.bufptr + m)).take (s.datasize - m) = B.drop (s.bufptr + m)
  calc (s.buf.drop (s.bufptr + m)).take (s.datasize - m)
      = ((s.buf.drop s.bufptr).drop m).take (s.datasize - m) := by
        rw [List.drop_drop]
    _ = ((s.buf.drop s.bufptr).take s.datasize).drop m := by
        rw [List.drop_take]
    _ = (B.drop s.bufptr).drop m := by rw [hreg]
    _ = B.drop (s.bufptr + m) := by rw [List.drop_drop]

/-- Under the echo invariant, the payload of a send of `m ≤ datasize`
bytes is the corresponding slice of the received datagram. -/
theorem echoInv_payload {B : List Nat} {a : Nat} {s : ServerState} {m : Nat}
    (hE : EchoInv B a s) (hm : m ≤ s.datasize) :
    (s.buf.drop s.bufptr).take m = (B.drop s.bufptr).take m := by
  obtain ⟨-, -, hreg⟩ := hE
  calc (s.buf.drop s.bufptr).take m
      = ((s.buf.drop s.bufptr).take s.datasize).take m := by
        rw [List.take_take, Nat.min_eq_left hm]
    _ = (B.drop s.bufptr).take m := by rw [hreg]

/-- Under the echo invariant, a send of all `datasize` remaining bytes
delivers exactly the unsent suffix of the received datagram. -/
theorem echoInv_payload_all {B : List Nat} {a : Nat} {s : ServerState}
    (hE : EchoInv B a s) :
    (s.buf.drop s.bufptr).take s.datasize = B.drop s.bufptr := hE.2.2

/-! ### Characterizations of one loop iteration -/

/-- A non-fatal iteration that processed a readiness event re-registered
exactly the interest recorded in the resulting state. -/
theorem step_ready_rearm {s : ServerState} {evs : Nat} {io : IOResult}
    {c : Bool} {s' : ServerState} {sent : Option (List Nat × Nat)}
    {ra : Option Nat}
    (hs : step s (.ready evs io c) = .next s' sent ra) :
    ra = some s'.interest := by
  simp only [step, rearm] at hs
  repeat' split at hs
  all_goals first
    | exact StepResult.noConfusion hs
    | (obtain ⟨h1, h2, h3⟩ := StepResult.next.inj hs; subst h1; exact h3.symm)

/-- Inversion of a successful `epoll_ctl` re-arm. -/
theorem rearm_next {s : ServerState} {sent : Option (List Nat × Nat)}
    {ev : Nat} {c : Bool} {s' : ServerState} {sent' : Option (List Nat × Nat)}
    {ra : Option Nat} (h : rearm s sent ev c = .next s' sent' ra) :
    s' = { s with interest := ev } ∧ sent' = sent ∧ ra = some ev := by
  unfold rearm at h
  split at h
  · obtain ⟨h1, h2, h3⟩ := StepResult.next.inj h
    exact ⟨h1.symm, h2.symm, h3.symm⟩
  · exact StepResult.noConfusion h

/-- The environment guarantees of a readiness event, as propositions. -/
theorem validInput_ready {s : ServerState} {evs : Nat} {io : IOResult}
    {c : Bool} (hv : validInput s (.ready evs io c) = true) :
    (evs &&& EPOLLIN = 0 ∨ s.interest &&& EPOLLIN ≠ 0) ∧
    (evs &&& EPOLLOUT = 0 ∨ s.interest &&& EPOLLOUT ≠ 0) ∧
    ioKindOk s evs io = true := by
  simp only [validInput, Bool.and_eq_true, Bool.or_eq_true, beq_iff_eq,
    bne_iff_ne, ne_eq] at hv
  tauto

/-- Complete enumeration of the non-fatal outcomes of processing a
readiness event under the environment guarantees: receive success,
transient receive failure, send success, transient send failure, or a
notification carrying neither readiness bit. -/
theorem step_ready_cases {s : ServerState} {evs : Nat} {io : IOResult}
    {c : Bool} {s' : ServerState} {sent : Option (List Nat × Nat)}
    {ra : Option Nat}
    (hv : validInput s (.ready evs io c) = true)
    (hs : step s (.ready evs io c) = .next s' sent ra) :
    (∃ d a, io = .recvOk d a ∧ s.interest &&& EPOLLIN ≠ 0 ∧
        d.length ≤ MAX_BUFSIZE ∧
        s' = { s with buf := d ++ s.buf.drop d.length,
                      datasize := d.length, bufptr := 0, insaddr := a,
                      interest := wrInterest } ∧
        sent = none ∧ ra = some wrInterest) ∨
    (io = .recvErr true ∧ s.interest &&& EPOLLIN ≠ 0 ∧
        s' = { s with interest := rdInterest } ∧ sent = none ∧
        ra = some rdInterest) ∨
    (∃ m, io = .sendOk m ∧ s.interest &&& EPOLLOUT ≠ 0 ∧ m ≤ s.datasize ∧
        s' = { s with datasize := s.datasize - m,
                      bufptr := s.bufptr + m,
                      interest :=
                        if s.datasize - m = 0 then rdInterest
                        else wrInterest } ∧
        sent = some ((s.buf.drop s.bufptr).take m, s.insaddr) ∧
        ra = some (if s.datasize - m = 0 then rdInterest else wrInterest)) ∨
    (io = .sendErr true ∧ s.interest &&& EPOLLOUT ≠ 0 ∧
        s' = { s with interest :=
                        if s.datasize = 0 then rdInterest
                        else wrInterest } ∧
        sent = none ∧
        ra = some (if s.datasize = 0 then rdInterest else wrInterest)) ∨
    (io = .noEvent ∧ s' = { s with interest := s.interest } ∧ sent = none ∧
        ra = some s.interest) := by
  obtain ⟨hv1, hv2, hk⟩ := validInput_ready hv
  cases io with
  | recvOk d a =>
      by_cases hin : evs &&& EPOLLIN ≠ 0
      · simp only [step, if_pos hin] at hs
        simp only [ioKindOk, if_pos hin] at hk
        obtain ⟨h1, h2, h3⟩ := rearm_next hs
        exact Or.inl ⟨d, a, rfl, hv1.resolve_left hin, by simpa using hk,
          h1, h2, h3⟩
      · simp only [ioKindOk, if_neg hin] at hk
        split at hk <;> exact absurd hk (by simp)
  | recvErr t =>
      by_cases hin : evs &&& EPOLLIN ≠ 0
      · simp only [step, if_pos hin] at hs
        cases t with
        | true =>
            rw [if_pos rfl] at hs
            obtain ⟨h1, h2, h3⟩ := rearm_next hs
            exact Or.inr (Or.inl ⟨rfl, hv1.resolve_left hin, h1, h2, h3⟩)
        | false => simp at hs
      · simp only [ioKindOk, if_neg hin] at hk
        split at hk <;> exact absurd hk (by simp)
  | sendOk m =>
      by_cases hin : evs &&& EPOLLIN ≠ 0
      · simp only [ioKindOk, if_pos hin] at hk
        exact absurd hk (by simp)
      · by_cases hout : evs &&& EPOLLOUT ≠ 0
        · simp only [step, if_neg hin, if_pos hout] at hs
          simp only [ioKindOk, if_neg hin, if_pos hout] at hk
          obtain ⟨h1, h2, h3⟩ := rearm_next hs
          exact Or.inr (Or.inr (Or.inl ⟨m, rfl, hv2.resolve_left hout,
            by simpa using hk, h1, h2, h3⟩))
        · simp only [ioKindOk, if_neg hin, if_neg hout] at hk
          exact absurd hk (by simp)
  | sendErr t =>
      by_cases hin : evs &&& EPOLLIN ≠ 0
      · simp only [ioKindOk, if_pos hin] at hk
        exact absurd hk (by simp)
      · by_cases hout : evs &&& EPOLLOUT ≠ 0
        · simp only [step, if_neg hin, if_pos hout] at hs
          cases t with
          | true =>
              rw [if_pos rfl] at hs
              obtain ⟨h1, h2, h3⟩ := rearm_next hs
              exact Or.inr (Or.inr (Or.inr (Or.inl
                ⟨rfl, hv2.resolve_left hout, h1, h2, h3⟩)))
          | false => simp at hs
        · simp only [ioKindOk, if_neg hin, if_neg hout] at hk
          exact absurd hk (by simp)
  | noEvent =>
      by_cases hin : evs &&& EPOLLIN ≠ 0
      · simp only [ioKindOk, if_pos hin] at hk
        exact absurd hk (by simp)
      · by_cases hout : evs &&& EPOLLOUT ≠ 0
        · simp only [ioKindOk, if_neg hin, if_pos hout] at hk
          exact absurd hk (by simp)
        · simp only [step, if_neg hin, if_neg hout] at hs
          obtain ⟨h1, h2, h3⟩ := rearm_next hs
          exact Or.inr (Or.inr (Or.inr (Or.inr ⟨rfl, h1, h2, h3⟩)))

theorem wr_ne_rd : wrInterest ≠ rdInterest := by decide

/-- One non-fatal iteration preserves the global invariant. -/
theorem ginv_step {s : ServerState} {gh : Option (List Nat × Nat)}
    {i : IterInput} {s' : ServerState} {sent : Option (List Nat × Nat)}
    {ra : Option Nat} (hI : GInv s gh) (hv : validInput s i = true)
    (hs : step s i = .next s' sent ra) : GInv s' (ghostNext gh i) := by
  obtain ⟨hI1, hI2, hI3⟩ := hI
  cases i with
  | waitErr e =>
      cases e with
      | true =>
          simp only [step, if_pos rfl] at hs
          obtain ⟨h1, h2, h3⟩ := StepResult.next.inj hs
          subst h1
          exact ⟨hI1, hI2, hI3⟩
      | false => simp [step] at hs
  | ready evs io c =>
      rcases step_ready_cases hv hs with
        ⟨d, a, hio, hiIn, hd, h1, h2, h3⟩ |
        ⟨hio, hiIn, h1, h2, h3⟩ |
        ⟨m, hio, hiOut, hm, h1, h2, h3⟩ |
        ⟨hio, hiOut, h1, h2, h3⟩ |
        ⟨hio, h1, h2, h3⟩
      · subst hio; subst h1
        exact ⟨Or.inr rfl, fun _ => ⟨d, a, rfl, echoInv_recv d a s⟩,
          fun hr => absurd (show wrInterest = rdInterest from hr) wr_ne_rd⟩
      · subst hio; subst h1
        have hrd : s.interest = rdInterest := by
          rcases hI1 with h | h
          · exact h
          · exact absurd (h ▸ hiIn) (by simp [wr_and_in])
        exact ⟨Or.inl rfl, fun hw => absurd hw rd_ne_wr, fun _ => hI3 hrd⟩
      · subst hio; subst h1
        have hwr : s.interest = wrInterest := by
          rcases hI1 with h | h
          · exact absurd (h ▸ hiOut) (by simp [rd_and_out])
          · exact h
        obtain ⟨B, a, hgh, hE⟩ := hI2 hwr
        by_cases hz : s.datasize - m = 0
        · refine ⟨Or.inl (by simp [if_pos hz]), ?_, ?_⟩
          · intro hw
            simp only [if_pos hz] at hw
            exact absurd hw rd_ne_wr
          · intro _
            exact Or.inr hz
        · refine ⟨Or.inr (by simp [if_neg hz]), ?_, ?_⟩
          · intro _
            exact ⟨B, a, hgh, echoInv_send _ hE hm⟩
          · intro hr
            simp only [if_neg hz] at hr
            exact absurd hr wr_ne_rd
      · subst hio; subst h1
        have hwr : s.interest = wrInterest := by
          rcases hI1 with h | h
          · exact absurd (h ▸ hiOut) (by simp [rd_and_out])
          · exact h
        obtain ⟨B, a, hgh, hE⟩ := hI2 hwr
        by_cases hz : s.datasize = 0
        · refine ⟨Or.inl (by simp [if_pos hz]), ?_, ?_⟩
          · intro hw
            simp only [if_pos hz] at hw
            exact absurd hw rd_ne_wr
          · intro _
            exact Or.inr hz
        · refine ⟨Or.inr (by simp [if_neg hz]), ?_, ?_⟩
          · intro _
            refine ⟨B, a, hgh, ?_⟩
            exact ⟨hE.1, hE.2.1, hE.2.2⟩
          · intro hr
            simp only [if_neg hz] at hr
            exact absurd hr wr_ne_rd
      · subst hio; subst h1
        exact ⟨hI1, fun hw => hI2 hw, fun hr => hI3 hr⟩

/-- Every reachable state satisfies the global invariant. -/
theorem reachG_inv {s : ServerState} {gh : Option (List Nat × Nat)}
    (h : ReachG s gh) : GInv s gh := by
  induction h with
  | init g gp gs ga hg =>
      exact ⟨Or.inl rfl, fun hw => absurd hw rd_ne_wr, fun _ => Or.inl rfl⟩
  | step s gh i s' sent ra hr hv hs ih => exact ginv_step ih hv hs

/-- `addSent` with no send is the identity. -/
theorem addSent_none (r : URResult) : addSent none r = r := by
  cases r <;> simp [addSent]

/-- Decomposition of `validInputs` over a cons. -/
theorem validInputs_cons {s : ServerState} {i : IterInput}
    {rest : List IterInput} (h : validInputs s (i :: rest) = true) :
    validInput s i = true ∧
    ∀ s' sent ra, step s i = .next s' sent ra →
      validInputs s' rest = true := by
  simp only [validInputs, Bool.and_eq_true] at h
  refine ⟨h.1, fun s' sent ra hs => ?_⟩
  have h2 := h.2
  rw [hs] at h2
  exact h2

/-- A run from a state with readable interest stops immediately. -/
theorem runUntilRead_rd {s : ServerState} (h : s.interest = rdInterest)
    (ins : List IterInput) : runUntilRead s ins = .reached s [] := by
  rw [runUntilRead.eq_def]
  dsimp only
  rw [if_pos h]

/-- While echoing datagram `B` to address `a`, any valid run that
reaches the awaiting-read state has sent, in order and addressed to
`a`, exactly the unsent suffix of `B`, and ends with `datasize = 0`. -/
theorem run_echo {B : List Nat} {a : Nat} :
    ∀ (ins : List IterInput) (s sf : ServerState)
      (sents : List (List Nat × Nat)),
      s.interest = wrInterest → EchoInv B a s →
      validInputs s ins = true →
      runUntilRead s ins = .reached sf sents →
      (sents.map Prod.fst).flatten = B.drop s.bufptr ∧
      (∀ p ∈ sents, p.2 = a) ∧
      sf.interest = rdInterest ∧ sf.datasize = 0 := by
  intro ins
  induction ins with
  | nil =>
      intro s sf sents hw hE hv hr
      rw [runUntilRead.eq_def] at hr
      dsimp only at hr
      rw [if_neg (by rw [hw]; exact wr_ne_rd)] at hr
      exact absurd hr (by simp)
  | cons i rest ih =>
      intro s sf sents hw hE hv hr
      rw [runUntilRead.eq_def] at hr
      dsimp only at hr
      rw [if_neg (by rw [hw]; exact wr_ne_rd)] at hr
      obtain ⟨hv1, hv2⟩ := validInputs_cons hv
      cases hstep : step s i with
      | fatal =>
          rw [hstep] at hr
          exact absurd hr (by simp)
      | next s1 sent ra =>
          rw [hstep] at hr
          dsimp only at hr
          have hv' := hv2 s1 sent ra hstep
          cases i with
          | waitErr e =>
              cases e with
              | true =>
                  simp only [step, if_pos rfl] at hstep
                  obtain ⟨x1, x2, x3⟩ := StepResult.next.inj hstep
                  subst x1; subst x2
                  rw [addSent_none] at hr
                  exact ih s sf sents hw hE hv' hr
              | false => simp [step] at hstep
          | ready evs io c =>
              rcases step_ready_cases hv1 hstep with
                ⟨d, a2, hio, hiIn, hd, h1, h2, h3⟩ |
                ⟨hio, hiIn, h1, h2, h3⟩ |
                ⟨m, hio, hiOut, hm, h1, h2, h3⟩ |
                ⟨hio, hiOut, h1, h2, h3⟩ |
                ⟨hio, h1, h2, h3⟩
              · rw [hw] at hiIn
                exact absurd wr_and_in hiIn
              · rw [hw] at hiIn
                exact absurd wr_and_in hiIn
              · subst h2
                by_cases hz : s.datasize - m = 0
                · have hrd : s1.interest = rdInterest := by
                    rw [h1]; simp [if_pos hz]
                  rw [runUntilRead_rd hrd] at hr
                  simp only [addSent, Option.toList_some, List.singleton_append] at hr
                  obtain ⟨hsf, hsents⟩ := URResult.reached.inj hr
                  subst hsf; subst hsents
                  have hmds : m = s.datasize := by omega
                  refine ⟨?_, ?_, hrd, ?_⟩
                  · simp only [List.map_cons, List.map_nil,
                      List.flatten_cons, List.flatten_nil, List.append_nil]
                    rw [hmds, echoInv_payload_all hE]
                  · intro p hp
                    simp only [List.mem_singleton] at hp
                    subst hp
                    exact hE.1
                  · rw [h1]
                    exact hz
                · have hwr1 : s1.interest = wrInterest := by
                    rw [h1]; simp [if_neg hz]
                  have hE1 : EchoInv B a s1 := by
                    rw [h1]; exact echoInv_send _ hE hm
                  cases hrun : runUntilRead s1 rest with
                  | reached sf1 l =>
                      rw [hrun] at hr
                      simp only [addSent, Option.toList_some, List.singleton_append] at hr
                      obtain ⟨hsf, hsents⟩ := URResult.reached.inj hr
                      subst hsf; subst hsents
                      obtain ⟨ihj, iha, ihrd, ihds⟩ :=
                        ih s1 sf1 l hwr1 hE1 hv' hrun
                      refine ⟨?_, ?_, ihrd, ihds⟩
                      · simp only [List.map_cons, List.flatten_cons]
                        rw [ihj]
                        have hb1 : s1.bufptr = s.bufptr + m := by rw [h1]
                        rw [hb1]
                        show (s.buf.drop s.bufptr).take m ++
                          B.drop (s.bufptr + m) = B.drop s.bufptr
                        rw [echoInv_payload hE hm, ← List.drop_drop,
                          List.take_append_drop]
                      · intro p hp
                        simp only [List.mem_cons] at hp
                        rcases hp with hp | hp
                        · subst hp
                          exact hE.1
                        · exact iha p hp
                  | pending s2 =>
                      rw [hrun] at hr
                      exact absurd hr (by simp [addSent])
                  | fatalStop =>
                      rw [hrun] at hr
                      exact absurd hr (by simp [addSent])
              · subst h2
                rw [addSent_none] at hr
                by_cases hz : s.datasize = 0
                · have hrd : s1.interest = rdInterest := by
                    rw [h1]; simp [if_pos hz]
                  rw [runUntilRead_rd hrd] at hr
                  obtain ⟨hsf, hsents⟩ := URResult.reached.inj hr
                  subst hsf; subst hsents
                  refine ⟨?_, by simp, hrd, by rw [h1]; exact hz⟩
                  have hp : s.bufptr = B.length := by
                    have := hE.2.1
                    omega
                  simp [hp, List.drop_length]
                · have hwr1 : s1.interest = wrInterest := by
                    rw [h1]; simp [if_neg hz]
                  have hE1 : EchoInv B a s1 := by
                    rw [h1]; exact ⟨hE.1, hE.2.1, hE.2.2⟩
                  have hb1 : s1.bufptr = s.bufptr := by rw [h1]
                  rw [← hb1]
                  exact ih s1 sf sents hwr1 hE1 hv' hr
              · subst h2
                rw [addSent_none] at hr
                have hwr1 : s1.interest = wrInterest := by
                  rw [h1]; exact hw
                have hE1 : EchoInv B a s1 := by
                  rw [h1]; exact ⟨hE.1, hE.2.1, hE.2.2⟩
                have hb1 : s1.bufptr = s.bufptr := by rw [h1]
                rw [← hb1]
                exact ih s1 sf sents hwr1 hE1 hv' hr

/-! ### Shared concrete states for witnesses -/

/-- The initial state over a zero-filled fresh buffer. -/
def wInit : ServerState := initState (List.replicate MAX_BUFSIZE 0) 0 0 0

/-- The state after `wInit` receives the empty datagram from address 7. -/
def wEmpty : ServerState :=
  { buf := List.replicate MAX_BUFSIZE 0, bufptr := 0, datasize := 0,
    insaddr := 7, interest := wrInterest }

/-- `wEmpty` is reachable, with the empty datagram as last receive. -/
theorem wEmpty_reachable : ReachG wEmpty (some ([], 7)) :=
  ReachG.step wInit none (.ready EPOLLIN (.recvOk [] 7) true)
    wEmpty none (some wrInterest)
    (ReachG.init (List.replicate MAX_BUFSIZE 0) 0 0 0
      (by rw [List.length_replicate]))
    (by decide) rfl

/-! ### The claims -/

/-- C1: for every datagram `B` with `0 < len(B) ≤ 1472` received by the
service, the concatenation of the payloads of the send operations
performed before the service next returns to the awaiting-read state
equals `B` exactly: the successful receive sets `datasize = len(B)` and
the send cursor to the buffer start, each successful send of `m` bytes
advances the cursor by `m` and decrements `datasize` by `m`, and the
echoed bytes are delivered byte for byte with no duplication or gap. -/
theorem echo_identity {s0 s1 sf : ServerState} {B : List Nat} {addr : Nat}
    {evs : Nat} {c : Bool} {ins : List IterInput}
    {sents : List (List Nat × Nat)}
    (_hB : 0 < B.length ∧ B.length ≤ MAX_BUFSIZE)
    (hv0 : validInput s0 (.ready evs (.recvOk B addr) c) = true)
    (hrecv : step s0 (.ready evs (.recvOk B addr) c) =
      .next s1 none (some wrInterest))
    (hv : validInputs s1 ins = true)
    (hrun : runUntilRead s1 ins = .reached sf sents) :
    (sents.map Prod.fst).flatten = B := by
  rcases step_ready_cases hv0 hrecv with
    ⟨d, a2, hio, hiIn, hd, h1, h2, h3⟩ | ⟨hio, h⟩ | ⟨m, hio, h⟩ |
    ⟨hio, h⟩ | ⟨hio, h⟩
  · obtain ⟨hd1, hd2⟩ := IOResult.recvOk.inj hio
    subst hd1; subst hd2
    have hw1 : s1.interest = wrInterest := by rw [h1]
    have hE1 : EchoInv B addr s1 := by
      rw [h1]; exact echoInv_recv B addr s0
    obtain ⟨hj, ha, hrd, hds⟩ := run_echo ins s1 sf sents hw1 hE1 hv hrun
    have hb : s1.bufptr = 0 := by rw [h1]
    rw [hb] at hj
    simpa using hj
  · exact IOResult.noConfusion hio
  · exact IOResult.noConfusion hio
  · exact IOResult.noConfusion hio
  · exact IOResult.noConfusion hio

/-- The state after `wInit` receives the two-byte datagram `[5, 6]`
from address 9. -/
def w1s1 : ServerState :=
  { buf := [5, 6] ++ (List.replicate MAX_BUFSIZE 0).drop 2, bufptr := 0,
    datasize := 2, insaddr := 9, interest := wrInterest }

/-- Inputs delivering `[5, 6]` in two partial sends of one byte each. -/
def w1ins : List IterInput :=
  [.ready EPOLLOUT (.sendOk 1) true, .ready EPOLLOUT (.sendOk 1) true]

/-- The state after both bytes of `[5, 6]` have been sent. -/
def w1sf : ServerState :=
  { buf := [5, 6] ++ (List.replicate MAX_BUFSIZE 0).drop 2, bufptr := 2,
    datasize := 0, insaddr := 9, interest := rdInterest }

/-- Witness for `echo_identity`: the datagram `[5, 6]` echoed in two
one-byte partial sends concatenates back to `[5, 6]`. -/
theorem echo_identity_witness :
    (([([5], 9), ([6], 9)] : List (List Nat × Nat)).map Prod.fst).flatten
      = [5, 6] :=
  @echo_identity wInit w1s1 w1sf [5, 6] 9 EPOLLIN true w1ins
    [([5], 9), ([6], 9)] (by decide) (by decide) rfl
    (by decide) rfl

/-- C2: between loop iterations every reachable state is in exactly one
of the two states: awaiting a datagram (`AwaitRead`) or echoing one
(`AwaitWrite`); the two are mutually exclusive and exhaustive; in the
echoing state the buffer holds the `datasize` unsent bytes of the last
received datagram, destined for the saved peer address; and in the
awaiting state no payload is pending (either nothing was ever received
or the last datagram has been sent down to `datasize = 0`). -/
theorem state_dichotomy {s : ServerState} {gh : Option (List Nat × Nat)}
    (h : ReachG s gh) :
    (AwaitRead s ∨ AwaitWrite s) ∧ ¬(AwaitRead s ∧ AwaitWrite s) ∧
    (AwaitWrite s → ∃ B a, gh = some (B, a) ∧ s.insaddr = a ∧
      s.bufptr + s.datasize = B.length ∧
      (s.buf.drop s.bufptr).take s.datasize = B.drop s.bufptr) ∧
    (AwaitRead s → gh = none ∨ s.datasize = 0) := by
  obtain ⟨h1, h2, h3⟩ := reachG_inv h
  refine ⟨h1, ?_, ?_, h3⟩
  · rintro ⟨hrd, hwr⟩
    exact rd_ne_wr (hrd.symm.trans hwr)
  · intro hw
    obtain ⟨B, a, hgh, hE⟩ := h2 hw
    exact ⟨B, a, hgh, hE.1, hE.2.1, hE.2.2⟩

/-- Witness for `state_dichotomy` at the reachable state `wEmpty`. -/
theorem state_dichotomy_witness :
    (AwaitRead wEmpty ∨ AwaitWrite wEmpty) ∧
    ¬(AwaitRead wEmpty ∧ AwaitWrite wEmpty) :=
  ⟨(state_dichotomy wEmpty_reachable).1,
   (state_dichotomy wEmpty_reachable).2.1⟩

/-- C3: after every processed readiness event the interest registered
by the re-arm call is exactly the resulting state's interest: readable
one-shot when the service is awaiting a datagram (`AwaitRead`),
writable one-shot when a received datagram's transmission is pending
(`AwaitWrite`). -/
theorem rearm_reflects_state {s : ServerState}
    {gh : Option (List Nat × Nat)} {evs : Nat} {io : IOResult} {c : Bool}
    {s' : ServerState} {sent : Option (List Nat × Nat)} {ra : Option Nat}
    (h : ReachG s gh)
    (hv : validInput s (.ready evs io c) = true)
    (hs : step s (.ready evs io c) = .next s' sent ra) :
    ∃ ev, ra = some ev ∧ ev = s'.interest ∧
      ((AwaitRead s' ∧ ev = rdInterest) ∨
       (AwaitWrite s' ∧ ev = wrInterest)) := by
  refine ⟨s'.interest, step_ready_rearm hs, rfl, ?_⟩
  have hI := ginv_step (reachG_inv h) hv hs
  rcases hI.1 with h1 | h1
  · exact Or.inl ⟨h1, h1⟩
  · exact Or.inr ⟨h1, h1⟩

/-- Witness for `rearm_reflects_state`: receiving the empty datagram in
the initial state re-arms writable interest, matching `AwaitWrite`. -/
theorem rearm_reflects_state_witness :
    ∃ ev, some wrInterest = some ev ∧ ev = wEmpty.interest ∧
      ((AwaitRead wEmpty ∧ ev = rdInterest) ∨
       (AwaitWrite wEmpty ∧ ev = wrInterest)) :=
  @rearm_reflects_state wInit none EPOLLIN (.recvOk [] 7) true wEmpty
    none (some wrInterest)
    (ReachG.init (List.replicate MAX_BUFSIZE 0) 0 0 0
      (by rw [List.length_replicate]))
    (by decide) rfl

/-- C4: the service never attempts to receive while an echo is
incomplete: in every reachable `AwaitWrite` state, no valid readiness
notification makes the loop call `recvfrom` (so only a send can be
attempted), and the loop transitions back to `AwaitRead` only with
`datasize = 0` and readable interest re-armed. -/
theorem single_flight {s : ServerState} {gh : Option (List Nat × Nat)}
    {i : IterInput} (_hreach : ReachG s gh) (hw : AwaitWrite s)
    (hv : validInput s i = true) :
    attemptsRecv i = false ∧
    (∀ s' sent ra, step s i = .next s' sent ra → AwaitRead s' →
      s'.datasize = 0 ∧ ra = some rdInterest) := by
  constructor
  · cases i with
    | waitErr e => rfl
    | ready evs io c =>
        obtain ⟨hv1, hv2, hk⟩ := validInput_ready hv
        have h0 : evs &&& EPOLLIN = 0 := by
          rcases hv1 with hx | hx
          · exact hx
          · rw [hw] at hx
            exact absurd wr_and_in hx
        simp [attemptsRecv, h0]
  · intro s' sent ra hs hrd
    cases i with
    | waitErr e =>
        cases e with
        | true =>
            simp only [step, if_pos rfl] at hs
            obtain ⟨x1, x2, x3⟩ := StepResult.next.inj hs
            subst x1
            exact absurd (hrd.symm.trans hw).symm wr_ne_rd
        | false => simp [step] at hs
    | ready evs io c =>
        rcases step_ready_cases hv hs with
          ⟨d, a2, hio, hiIn, hd, h1, h2, h3⟩ |
          ⟨hio, hiIn, h1, h2, h3⟩ |
          ⟨m, hio, hiOut, hm, h1, h2, h3⟩ |
          ⟨hio, hiOut, h1, h2, h3⟩ |
          ⟨hio, h1, h2, h3⟩
        · rw [hw] at hiIn
          exact absurd wr_and_in hiIn
        · rw [hw] at hiIn
          exact absurd wr_and_in hiIn
        · by_cases hz : s.datasize - m = 0
          · refine ⟨by rw [h1]; exact hz, ?_⟩
            rw [h3, if_pos hz]
          · rw [h1] at hrd
            simp only [if_neg hz] at hrd
            exact absurd hrd wr_ne_rd
        · by_cases hz : s.datasize = 0
          · refine ⟨by rw [h1]; exact hz, ?_⟩
            rw [h3, if_pos hz]
          · rw [h1] at hrd
            simp only [if_neg hz] at hrd
            exact absurd hrd wr_ne_rd
        · rw [h1] at hrd
          exact absurd (hrd.symm.trans hw).symm wr_ne_rd

/-- Witness for `single_flight` at the reachable `AwaitWrite` state
`wEmpty` with a successful zero-byte send. -/
theorem single_flight_witness :
    attemptsRecv (.ready EPOLLOUT (.sendOk 0) true) = false ∧
    (∀ s' sent ra,
      step wEmpty (.ready EPOLLOUT (.sendOk 0) true) = .next s' sent ra →
      AwaitRead s' → s'.datasize = 0 ∧ ra = some rdInterest) :=
  single_flight wEmpty_reachable rfl (by decide)

/-- C5 counterexample: in the reachable `AwaitWrite` state `wEmpty`
(reached by receiving an empty datagram), a transient send failure
leaves all data fields unchanged but re-arms *readable* interest, not
the writable interest matching the current state — refuting the claim
that the watcher is always re-armed for the same event type. -/
theorem transient_rearm_counterexample :
    ReachG wEmpty (some ([], 7)) ∧ AwaitWrite wEmpty ∧
    validInput wEmpty (.ready EPOLLOUT (.sendErr true) true) = true ∧
    step wEmpty (.ready EPOLLOUT (.sendErr true) true) =
      .next { wEmpty with interest := rdInterest } none (some rdInterest) ∧
    rdInterest ≠ wEmpty.interest :=
  ⟨wEmpty_reachable, rfl, by decide, rfl, by decide⟩

/-- C5 amended: a transient (would-block or interrupted) receive or
send failure leaves `buf`, `bufptr`, `datasize` and `insaddr`
unchanged and is not fatal, and the watcher is re-armed for the same
event type as the current state — except that a transient *send*
failure with `datasize = 0` (an empty datagram pending) re-arms
readable interest instead. -/
theorem transient_preserves_state {s : ServerState}
    {gh : Option (List Nat × Nat)} {evs : Nat} {io : IOResult}
    (h : ReachG s gh)
    (hio : io = IOResult.recvErr true ∨ io = IOResult.sendErr true)
    (hv : validInput s (.ready evs io true) = true) :
    ∃ ra, step s (.ready evs io true) =
        .next { s with interest := ra } none (some ra) ∧
      (ra = s.interest ∨
        (io = IOResult.sendErr true ∧ s.datasize = 0 ∧ ra = rdInterest)) := by
  obtain ⟨hv1, hv2, hk⟩ := validInput_ready hv
  obtain ⟨hI1, hI2, hI3⟩ := reachG_inv h
  rcases hio with hio | hio <;> subst hio
  · simp only [ioKindOk] at hk
    split at hk
    · rename_i hin
      have hrd : s.interest = rdInterest := by
        rcases hI1 with hx | hx
        · exact hx
        · have hww := hv1.resolve_left hin
          rw [hx] at hww
          exact absurd wr_and_in hww
      refine ⟨rdInterest, ?_, Or.inl hrd.symm⟩
      simp [step, rearm, hin]
    · split at hk
      · exact absurd hk (by simp)
      · exact absurd hk (by simp)
  · simp only [ioKindOk] at hk
    split at hk
    · exact absurd hk (by simp)
    · rename_i hin
      split at hk
      · rename_i hout
        have hwr : s.interest = wrInterest := by
          rcases hI1 with hx | hx
          · have hww := hv2.resolve_left hout
            rw [hx] at hww
            exact absurd rd_and_out hww
          · exact hx
        by_cases hz : s.datasize = 0
        · refine ⟨rdInterest, ?_, Or.inr ⟨rfl, hz, rfl⟩⟩
          simp [step, rearm, hin, hout, hz]
        · refine ⟨wrInterest, ?_, Or.inl hwr.symm⟩
          simp [step, rearm, hin, hout, hz]
      · exact absurd hk (by simp)

/-- Witness for `transient_preserves_state`: a transient receive
failure in the initial state re-arms readable interest with the state
unchanged. -/
theorem transient_preserves_state_witness :
    ∃ ra, step wInit (.ready EPOLLIN (.recvErr true) true) =
        .next { wInit with interest := ra } none (some ra) ∧
      (ra = wInit.interest ∨
        (IOResult.recvErr true = IOResult.sendErr true ∧
         wInit.datasize = 0 ∧ ra = rdInterest)) :=
  @transient_preserves_state wInit none EPOLLIN (.recvErr true)
    (ReachG.init (List.replicate MAX_BUFSIZE 0) 0 0 0
      (by rw [List.length_replicate]))
    (Or.inl rfl) (by decide)

/-- C6: an `epoll_wait` failure with `errno == EINTR` makes the loop
retry the wait with no I/O performed, no state change, and no re-arm;
any other `epoll_wait` failure is fatal, is reported through the error
macro, and control proceeds to teardown with a failure exit code. -/
theorem wait_eintr_retries (s : ServerState) :
    step s (.waitErr true) = .next s none none ∧
    step s (.waitErr false) = .fatal ∧
    fatalReport .epollWaitFail =
      ([.perrorDiag "main" 163 "epoll_wait"], EXIT_FAILURE) :=
  ⟨rfl, rfl, rfl⟩

/-- Setting the `O_NONBLOCK` bit makes the flag word test nonzero. -/
theorem or_nonblock_ne_zero (f : Nat) :
    (f ||| O_NONBLOCK) &&& O_NONBLOCK ≠ 0 := by
  intro h0
  have hb : ((f ||| O_NONBLOCK) &&& O_NONBLOCK).testBit 11 = true := by
    rw [Nat.testBit_and, Nat.testBit_or]
    have h11 : (O_NONBLOCK).testBit 11 = true := by decide
    simp [h11]
  rw [h0] at hb
  simp [Nat.zero_testBit] at hb

/-- C7: the function named `set_nonblock` applies the `SO_REUSEPORT`
socket option and the function named `set_reuseport` applies the
`O_NONBLOCK` file-status flag — their behaviours are swapped relative
to their names — and after the setup sequence of `main` both
properties, port reuse and non-blocking mode, are set on the socket. -/
theorem setup_flags_swapped (sk : SockState) :
    set_nonblock sk = setsockopt sk SOL_SOCKET SO_REUSEPORT 1 ∧
    set_reuseport sk = fcntl_setfl sk (fcntl_getfl sk ||| O_NONBLOCK) ∧
    hasReuseport (set_nonblock sk) = true ∧
    isNonblock (set_nonblock sk) = isNonblock sk ∧
    isNonblock (set_reuseport sk) = true ∧
    hasReuseport (set_reuseport sk) = hasReuseport sk ∧
    hasReuseport (setupSocket sk) = true ∧
    isNonblock (setupSocket sk) = true := by
  refine ⟨rfl, rfl, ?_, rfl, ?_, rfl, ?_, ?_⟩
  · simp [hasReuseport, set_nonblock, setsockopt]
  · simp only [isNonblock, set_reuseport, fcntl_setfl, fcntl_getfl,
      bne_iff_ne, ne_eq]
    exact or_nonblock_ne_zero sk.statusFlags
  · simp [hasReuseport, setupSocket, set_nonblock, setsockopt]
  · simp only [isNonblock, setupSocket, set_nonblock, setsockopt,
      set_reuseport, fcntl_setfl, fcntl_getfl, bne_iff_ne, ne_eq]
    exact or_nonblock_ne_zero sk.statusFlags

/-- C8 counterexample: two ways the original claim fails.  The
buffer-allocation failure path prints only the requested size, naming
neither the enclosing function nor the source line; and at the macro
call sites on lines 117, 123 and 137 the `perror` label passed to the
macro (`sockfd`, `sockfd`, `bind`) is not the name of the call that
failed (`socket`, `set_reuseport`, `set_nonblock`), so those
diagnostics do not identify the failing operation either. -/
theorem fatal_diag_counterexample :
    ((fatalReport .mallocFail).1 = [Diag.mallocDiag MAX_BUFSIZE] ∧
     ∀ d ∈ (fatalReport .mallocFail).1,
       identifiesFuncAndLine d = false) ∧
    (∀ d ∈ (fatalReport .socketFail).1,
       diagLabel d ≠ some (failingCall .socketFail)) ∧
    (∀ d ∈ (fatalReport .reuseportFail).1,
       diagLabel d ≠ some (failingCall .reuseportFail)) ∧
    (∀ d ∈ (fatalReport .nonblockFail).1,
       diagLabel d ≠ some (failingCall .nonblockFail)) := by
  refine ⟨⟨rfl, ?_⟩, ?_, ?_, ?_⟩ <;>
    (intro d hd
     simp only [fatalReport, List.mem_singleton] at hd
     subst hd
     decide)

/-- C8 amended: every fatal failure writes exactly one diagnostic to
the error stream and exits with `EXIT_FAILURE`, never `EXIT_SUCCESS`.
Every failure except buffer allocation identifies the enclosing
function name and the source line, and its `perror` label names the
failing operation — except at the three call sites on lines 117, 123
and 137, whose labels (`sockfd`, `sockfd`, `bind`) name a different
symbol than the failing call.  The buffer-allocation failure reports
only the requested allocation size. -/
theorem fatal_exit_nonzero (fp : FailPoint) :
    (fatalReport fp).2 = EXIT_FAILURE ∧
    (fatalReport fp).2 ≠ EXIT_SUCCESS ∧
    (fatalReport fp).1.length = 1 ∧
    (fp ≠ .mallocFail →
      ∀ d ∈ (fatalReport fp).1, identifiesFuncAndLine d = true) ∧
    (fp ≠ .mallocFail → fp ≠ .socketFail → fp ≠ .reuseportFail →
      fp ≠ .nonblockFail →
      ∀ d ∈ (fatalReport fp).1, diagLabel d = some (failingCall fp)) := by
  cases fp <;>
    refine ⟨rfl, by decide, rfl, fun hne d hd => ?_,
      fun h1 h2 h3 h4 d hd => ?_⟩ <;>
    first
      | exact absurd rfl hne
      | exact absurd rfl h1
      | exact absurd rfl h2
      | exact absurd rfl h3
      | exact absurd rfl h4
      | (simp only [fatalReport, List.mem_singleton] at hd
         subst hd
         rfl)

/-- Witness for `fatal_exit_nonzero` at the `bind` failure path, where
all the implications fire: the diagnostic carries function name,
source line, and the correct operation label. -/
theorem fatal_exit_nonzero_witness :
    (fatalReport .bindFail).2 = EXIT_FAILURE ∧
    (fatalReport .bindFail).2 ≠ EXIT_SUCCESS ∧
    (fatalReport .bindFail).1.length = 1 ∧
    (FailPoint.bindFail ≠ .mallocFail →
      ∀ d ∈ (fatalReport .bindFail).1,
        identifiesFuncAndLine d = true) ∧
    (FailPoint.bindFail ≠ .mallocFail →
      FailPoint.bindFail ≠ .socketFail →
      FailPoint.bindFail ≠ .reuseportFail →
      FailPoint.bindFail ≠ .nonblockFail →
      ∀ d ∈ (fatalReport .bindFail).1,
        diagLabel d = some (failingCall .bindFail)) :=
  fatal_exit_nonzero .bindFail

/-- C9: on every exit path the teardown epilogue releases everything —
the epoll descriptor is closed if it was created, the socket is closed
if it was created, the buffer is freed, nothing is left held — and the
guarded `close` calls only ever target validly created (nonnegative)
descriptors. -/
theorem teardown_no_leak (fp : FailPoint) (sfd efd : Nat) :
    leaksB (exitResources fp sfd efd) = false ∧
    ∀ x ∈ exitCloseCalls fp sfd efd, 0 ≤ x := by
  cases fp <;> constructor <;>
    simp [exitResources, exitCloseCalls, resourcesAt, teardown,
      closeCalls, leaksB, Int.natCast_nonneg]

/-- Witness for `teardown_no_leak` at the `sendto` failure path with
descriptors 3 and 4. -/
theorem teardown_no_leak_witness :
    leaksB (exitResources .sendtoFail 3 4) = false ∧
    ∀ x ∈ exitCloseCalls .sendtoFail 3 4, 0 ≤ x :=
  teardown_no_leak .sendtoFail 3 4

/-- C10: a receive that succeeds with zero bytes still records
`datasize = 0`, saves the sender, and arms writable interest; on the
next writable notification with a successful send, the loop performs
exactly one zero-byte send to the saved peer address and only then
re-arms readable interest — empty datagrams are echoed as empty
datagrams. -/
theorem empty_datagram_echo {s : ServerState} {a : Nat}
    (h : AwaitRead s) :
    validInput s (.ready EPOLLIN (.recvOk [] a) true) = true ∧
    ∃ s1 s2,
      step s (.ready EPOLLIN (.recvOk [] a) true) =
        .next s1 none (some wrInterest) ∧
      s1.datasize = 0 ∧ s1.insaddr = a ∧ AwaitWrite s1 ∧
      validInput s1 (.ready EPOLLOUT (.sendOk 0) true) = true ∧
      step s1 (.ready EPOLLOUT (.sendOk 0) true) =
        .next s2 (some ([], a)) (some rdInterest) ∧
      AwaitRead s2 ∧ s2.datasize = 0 := by
  obtain ⟨b, p, ds, ia, intr⟩ := s
  have h9 : intr = rdInterest := h
  subst h9
  refine ⟨?_, ⟨{ buf := [] ++ b.drop 0, bufptr := 0, datasize := 0,
                 insaddr := a, interest := wrInterest },
     { buf := [] ++ b.drop 0, bufptr := 0, datasize := 0, insaddr := a,
       interest := rdInterest },
     rfl, rfl, rfl, rfl, ?_, rfl, rfl, rfl⟩⟩
  · simp [validInput, ioKindOk, rdInterest, EPOLLIN, EPOLLOUT,
      EPOLLONESHOT, MAX_BUFSIZE]
  · simp [validInput, ioKindOk, wrInterest, EPOLLIN, EPOLLOUT,
      EPOLLONESHOT, MAX_BUFSIZE]

/-- Witness for `empty_datagram_echo` at the initial state. -/
theorem empty_datagram_echo_witness :
    validInput wInit (.ready EPOLLIN (.recvOk [] 7) true) = true ∧
    ∃ s1 s2,
      step wInit (.ready EPOLLIN (.recvOk [] 7) true) =
        .next s1 none (some wrInterest) ∧
      s1.datasize = 0 ∧ s1.insaddr = 7 ∧ AwaitWrite s1 ∧
      validInput s1 (.ready EPOLLOUT (.sendOk 0) true) = true ∧
      step s1 (.ready EPOLLOUT (.sendOk 0) true) =
        .next s2 (some ([], 7)) (some rdInterest) ∧
      AwaitRead s2 ∧ s2.datasize = 0 :=
  empty_datagram_echo rfl

end UdpEcho